import Mathlib

/-!
Shallow embedding of `src/module_reloader.py`, a live-reload registry for
Python modules, together with theorems checking the specification's claims
against it.

Modelling conventions:

* `time.time()` values and file mtimes are abstract clock points, modelled
  as `Nat`; only their ordering matters to the program.
* Python's module-level dict `loaded_modules` is an association list
  `List (String × LoadedModuleInfo)` in insertion order (Python dicts
  preserve insertion order, and the code only appends and mutates in place).
* `sys.modules` is an association list `String × PyModule`, where a
  `PyModule` carries the one attribute the code reads, `__file__`
  (an `Option String`, since Python types it `Optional[str]`).
* The filesystem is the finite map `path ↦ mtime` of existing files;
  `os.path.getmtime` on an absent path raises, modelled by a lookup miss.
* Python exceptions are the explicit `PyError` type.  An operation that can
  raise while also having already mutated state returns the state it left
  behind together with `Option PyError` (Python exceptions do not roll back
  prior mutations).
* `importlib.reload` re-executes a module's top level; whether that
  re-execution succeeds is external behaviour, modelled by an oracle
  `reloadOk : String → Bool`.  On success the module object is mutated in
  place, so the `sys.modules` mapping itself is unchanged at this level of
  abstraction.
-/

namespace ModuleReloader

/-- Python exceptions that the embedded code can raise. -/
inductive PyError where
  | assertionError : PyError
  | keyError : String → PyError
  | fileNotFoundError : String → PyError
  | reloadError : String → PyError
deriving DecidableEq, Repr

/-- The fields of `importlib.machinery.ModuleSpec` that the code reads:
`spec.name` and `spec.origin` (typed `Optional[str]` in Python). -/
structure ModuleSpec where
  name : String
  origin : Option String
deriving DecidableEq, Repr

/-- The `LoadedModuleInfo` dataclass of the source. -/
structure LoadedModuleInfo where
  module_name : String
  path : String
  load_time : Nat
deriving DecidableEq, Repr

/-- The module-level dict `loaded_modules : Dict[str, LoadedModuleInfo]`,
in insertion order. -/
abbrev Registry := List (String × LoadedModuleInfo)

/-- A live module object, restricted to the one attribute the code reads:
`__file__`. -/
structure PyModule where
  file : Option String
deriving DecidableEq, Repr

/-- `sys.modules`, restricted to what the code observes. -/
abbrev SysModules := List (String × PyModule)

/-- The filesystem: existing paths with their mtimes. -/
abbrev FileSystem := List (String × Nat)

/-- Python string truthiness of an `Optional[str]`: `None` and the empty
string are falsy.  Used by `assert spec.origin` and `if module_file:`. -/
def truthyStr : Option String → Bool
  | none => false
  | some s => !s.isEmpty

/-- Association-list lookup; `alookup k d = some v` models `d[k] == v`,
`(alookup k d).isSome` models `k in d`. -/
def alookup {β : Type} : String → List (String × β) → Option β
  | _, [] => none
  | n, (k, v) :: rest => if k = n then some v else alookup n rest

/-- `track_module(spec)`:
if `spec.name not in loaded_modules`, run `assert spec.origin` (raising
`AssertionError` when `spec.origin` is falsy) and otherwise append a fresh
entry with `load_time = time.time()`, here the explicit `now`.
Returns the registry left behind and the exception, if any. -/
def track_module (now : Nat) (spec : ModuleSpec) (reg : Registry) :
    Registry × Option PyError :=
  if (alookup spec.name reg).isSome then (reg, none)
  else if truthyStr spec.origin then
    (reg ++ [(spec.name, ⟨spec.name, spec.origin.getD "", now⟩)], none)
  else (reg, some PyError.assertionError)

/-- `update_module_load_time(module_name)`: if the name is tracked, set its
entry's `load_time` to `time.time()` (the explicit `now`); otherwise do
nothing.  The in-place mutation keeps the dict's order and keys. -/
def update_module_load_time (now : Nat) (name : String) (reg : Registry) :
    Registry :=
  reg.map (fun p => if p.1 = name then (p.1, ⟨p.2.module_name, p.2.path, now⟩) else p)

/-- The single global reference to the `loaded_modules` dict.  Aliasing is
what claim C8 is about, so the heap is modelled explicitly: a `RegistryRef`
is dereferenced against the current heap. -/
def RegistryRef : Type := Unit

/-- The mutable process heap: the contents of the global `loaded_modules`. -/
structure Heap where
  loaded_modules : Registry
deriving DecidableEq, Repr

/-- Dereference a registry reference in a given heap state. -/
def readRef (_r : RegistryRef) (h : Heap) : Registry := h.loaded_modules

/-- `get_loaded_modules()`: `return loaded_modules` returns the global dict
object itself, i.e. a reference to it, not a copy. -/
def get_loaded_modules : RegistryRef := ()

/-- Result of `reload_module`: whether `importlib.reload` ran to completion,
the registry left behind, and the exception, if any. -/
structure ReloadOutcome where
  reExecuted : Bool
  reg : Registry
  err : Option PyError
deriving DecidableEq, Repr

/-- `reload_module(module_name)`:
if the name is in `sys.modules`, call `importlib.reload` (success decided by
the `reloadOk` oracle; on failure the exception propagates and the registry
is untouched) and then `update_module_load_time(module_name)`; otherwise do
nothing at all. -/
def reload_module (reloadOk : String → Bool) (now : Nat) (name : String)
    (sysm : SysModules) (reg : Registry) : ReloadOutcome :=
  if (alookup name sysm).isSome then
    if reloadOk name then ⟨true, update_module_load_time now name reg, none⟩
    else ⟨false, reg, some (PyError.reloadError name)⟩
  else ⟨false, reg, none⟩

/-- `get_stale_modules()`: iterate over `loaded_modules.items()` in order;
for each entry read `sys.modules[module_name].__file__` (a missing key
raises `KeyError`), skip the entry when `__file__` is falsy, otherwise read
`os.path.getmtime(module_file)` (a missing file raises) and report the name
when the mtime is strictly greater than the recorded `load_time`. -/
def get_stale_modules (sysm : SysModules) (fs : FileSystem) :
    Registry → Except PyError (List String)
  | [] => Except.ok []
  | (n, i) :: rest =>
    match alookup n sysm with
    | none => Except.error (PyError.keyError n)
    | some m =>
      match m.file with
      | none => get_stale_modules sysm fs rest
      | some f =>
        if f.isEmpty then get_stale_modules sysm fs rest
        else
          match alookup f fs with
          | none => Except.error (PyError.fileNotFoundError f)
          | some mt =>
            if i.load_time < mt then
              match get_stale_modules sysm fs rest with
              | Except.ok res => Except.ok (n :: res)
              | Except.error e => Except.error e
            else get_stale_modules sysm fs rest

/-- The body of `reload_stale_modules`: call `reload_module` on each listed
name in order; a raised exception aborts the remaining iterations, keeping
the registry mutations made so far.  `nowAt` gives the `time.time()` value
observed when a given module's timestamp update runs. -/
def run_reloads (reloadOk : String → Bool) (nowAt : String → Nat)
    (sysm : SysModules) : List String → Registry → Registry × Option PyError
  | [], reg => (reg, none)
  | n :: rest, reg =>
    match reload_module reloadOk (nowAt n) n sysm reg with
    | ⟨_, reg1, none⟩ => run_reloads reloadOk nowAt sysm rest reg1
    | ⟨_, reg1, some e⟩ => (reg1, some e)

/-- `reload_stale_modules()`: compute `get_stale_modules()` (an exception
there propagates with the registry untouched), then reload each stale name
in order. -/
def reload_stale_modules (reloadOk : String → Bool) (nowAt : String → Nat)
    (sysm : SysModules) (fs : FileSystem) (reg : Registry) :
    Registry × Option PyError :=
  match get_stale_modules sysm fs reg with
  | Except.error e => (reg, some e)
  | Except.ok stale => run_reloads reloadOk nowAt sysm stale reg

/-- One element of `sys.meta_path[1:]`: `none` models a finder object
without a `find_spec` attribute (skipped by the `hasattr` check); `some g`
models a finder whose `find_spec(fullname, path, target)` is `g` with the
`path` and `target` arguments held fixed, as the interceptor merely passes
them through. -/
abbrev Finder := Option (String → Option ModuleSpec)

/-- `CustomImportFinder.find_spec(fullname, path, target)`: try each finder
of `sys.meta_path[1:]` in order; on the first spec returned, call
`track_module(spec)` (whose `AssertionError`, if raised, propagates and
aborts the resolution) and return the spec unchanged; if no finder
succeeds, return `None`.  The result is the outcome (returned value or
escaped exception) together with the registry left behind. -/
def find_spec (now : Nat) : List Finder → String → Registry →
    Except PyError (Option ModuleSpec) × Registry
  | [], _, reg => (Except.ok none, reg)
  | f :: rest, fullname, reg =>
    match f with
    | none => find_spec now rest fullname reg
    | some g =>
      match g fullname with
      | none => find_spec now rest fullname reg
      | some spec =>
        match track_module now spec reg with
        | (reg1, none) => (Except.ok (some spec), reg1)
        | (reg1, some e) => (Except.error e, reg1)

/-!  Helper predicates describing one step of the staleness scan.  Both
depend only on the entry's name (and, for staleness, its recorded
`load_time`): the scan never reads the registry's stored `path`. -/

/-- A registry entry named `n` is scanned without raising: its name is in
`sys.modules`, and its module's `__file__` is falsy or names an existing
file. -/
def nameScans (sysm : SysModules) (fs : FileSystem) (n : String) : Bool :=
  match alookup n sysm with
  | none => false
  | some m =>
    match m.file with
    | none => true
    | some f => f.isEmpty || (alookup f fs).isSome

/-- A registry entry named `n` with recorded load time `lt` is classified
stale by the scan. -/
def nameStale (sysm : SysModules) (fs : FileSystem) (n : String) (lt : Nat) :
    Bool :=
  match alookup n sysm with
  | none => false
  | some m =>
    match m.file with
    | none => false
    | some f =>
      if f.isEmpty then false
      else
        match alookup f fs with
        | none => false
        | some mt => lt < mt

theorem alookup_eq_none {β : Type} (n : String) (l : List (String × β)) :
    alookup n l = none ↔ ∀ p ∈ l, p.1 ≠ n := by
  induction l with
  | nil => simp [alookup]
  | cons p rest ih =>
    obtain ⟨k, v⟩ := p
    by_cases hk : k = n <;> simp [alookup, hk, ih]

theorem alookup_append_right {β : Type} (n : String) (l : List (String × β))
    (v : β) (h : alookup n l = none) :
    alookup n (l ++ [(n, v)]) = some v := by
  induction l with
  | nil => simp [alookup]
  | cons p rest ih =>
    obtain ⟨k, w⟩ := p
    by_cases hk : k = n
    · simp [alookup, hk] at h
    · simp only [alookup, hk, if_neg hk, List.cons_append]
      simp only [alookup, hk, if_neg hk] at h ⊢
      exact ih h

theorem update_cons (now : Nat) (n k : String) (v : LoadedModuleInfo)
    (rest : Registry) :
    update_module_load_time now n ((k, v) :: rest) =
      (if k = n then (k, ⟨v.module_name, v.path, now⟩) else (k, v)) ::
        update_module_load_time now n rest := rfl

theorem alookup_update_self (now : Nat) (n : String) (reg : Registry) :
    alookup n (update_module_load_time now n reg) =
      (alookup n reg).map (fun i => ⟨i.module_name, i.path, now⟩) := by
  induction reg with
  | nil => rfl
  | cons p rest ih =>
    obtain ⟨k, v⟩ := p
    rw [update_cons]
    by_cases hk : k = n
    · rw [if_pos hk]
      subst hk
      simp [alookup]
    · rw [if_neg hk]
      simp [alookup, hk, ih]

theorem alookup_update_ne (now : Nat) (n k : String) (reg : Registry)
    (h : k ≠ n) :
    alookup k (update_module_load_time now n reg) = alookup k reg := by
  induction reg with
  | nil => rfl
  | cons p rest ih =>
    obtain ⟨k0, v⟩ := p
    rw [update_cons]
    by_cases hk0 : k0 = n
    · rw [if_pos hk0]
      have hne : k0 ≠ k := fun he => h (he ▸ hk0)
      simp [alookup, hne, ih]
    · rw [if_neg hk0]
      by_cases hk0k : k0 = k <;> simp [alookup, hk0k, ih]

theorem update_keys (now : Nat) (n : String) (reg : Registry) :
    (update_module_load_time now n reg).map Prod.fst = reg.map Prod.fst := by
  induction reg with
  | nil => rfl
  | cons p rest ih =>
    obtain ⟨k, v⟩ := p
    rw [update_cons]
    by_cases hk : k = n <;> simp [hk, ih]

/-- When every entry scans without raising, `get_stale_modules` returns
normally, reporting exactly the entries whose file mtime strictly exceeds
their recorded load time, in registry order. -/
theorem get_stale_eq_of_scans (sysm : SysModules) (fs : FileSystem)
    (reg : Registry) (h : ∀ p ∈ reg, nameScans sysm fs p.1 = true) :
    get_stale_modules sysm fs reg =
      Except.ok ((reg.filter (fun p => nameStale sysm fs p.1 p.2.load_time)).map Prod.fst) := by
  induction reg with
  | nil => rfl
  | cons p rest ih =>
    obtain ⟨n, i⟩ := p
    have hp : nameScans sysm fs n = true := h (n, i) (List.mem_cons_self _ _)
    have hrest : ∀ q ∈ rest, nameScans sysm fs q.1 = true :=
      fun q hq => h q (List.mem_cons_of_mem _ hq)
    have ihr := ih hrest
    cases hm : alookup n sysm with
    | none => simp [nameScans, hm] at hp
    | some m =>
      cases hf : m.file with
      | none =>
        simp [get_stale_modules, hm, hf, nameStale, ihr]
      | some f =>
        by_cases hfe : f.isEmpty
        · simp [get_stale_modules, hm, hf, hfe, nameStale, ihr]
        · cases hmt : alookup f fs with
          | none => simp [nameScans, hm, hf, hfe, hmt] at hp
          | some mt =>
            by_cases hlt : i.load_time < mt <;>
              simp [get_stale_modules, hm, hf, hfe, hmt, hlt, nameStale, ihr]

/-- Conversely, if `get_stale_modules` returns normally then every scanned
entry was scannable: a failing entry would have raised. -/
theorem scans_of_get_stale_ok (sysm : SysModules) (fs : FileSystem)
    (reg : Registry) (res : List String)
    (h : get_stale_modules sysm fs reg = Except.ok res) :
    ∀ p ∈ reg, nameScans sysm fs p.1 = true := by
  induction reg generalizing res with
  | nil => intro p hp; cases hp
  | cons p rest ih =>
    obtain ⟨n, i⟩ := p
    intro q hq
    cases hm : alookup n sysm with
    | none => simp [get_stale_modules, hm] at h
    | some m =>
      cases hf : m.file with
      | none =>
        rcases List.mem_cons.mp hq with hq1 | hq2
        · subst hq1; simp [nameScans, hm, hf]
        · exact ih res (by simpa [get_stale_modules, hm, hf] using h) q hq2
      | some f =>
        by_cases hfe : f.isEmpty
        · rcases List.mem_cons.mp hq with hq1 | hq2
          · subst hq1; simp [nameScans, hm, hf, hfe]
          · exact ih res (by simpa [get_stale_modules, hm, hf, hfe] using h) q hq2
        · have hfe2 : f.isEmpty = false := by simpa using hfe
          cases hmt : alookup f fs with
          | none => simp [get_stale_modules, hm, hf, hfe2, hmt] at h
          | some mt =>
            rcases List.mem_cons.mp hq with hq1 | hq2
            · subst hq1; simp [nameScans, hm, hf, hfe2, hmt]
            · by_cases hlt : i.load_time < mt
              · cases hrec : get_stale_modules sysm fs rest with
                | ok res2 => exact ih res2 hrec q hq2
                | error e => simp [get_stale_modules, hm, hf, hfe2, hmt, hlt, hrec] at h
              · exact ih res (by simpa [get_stale_modules, hm, hf, hfe2, hmt, hlt] using h) q hq2

/-- Membership in the projection of a filtered association list with
distinct keys is decided by the filter at the unique entry for that key. -/
theorem mem_filter_map_fst (q : String × LoadedModuleInfo → Bool)
    (reg : Registry) (hnd : (reg.map Prod.fst).Nodup) (n : String)
    (i : LoadedModuleInfo) (hmem : (n, i) ∈ reg) :
    n ∈ (reg.filter q).map Prod.fst ↔ q (n, i) = true := by
  constructor
  · intro h
    rcases List.mem_map.mp h with ⟨p, hp, hpn⟩
    have hp2 := List.mem_of_mem_filter hp
    have hq := List.of_mem_filter hp
    have hpe : p = (n, i) := by
      apply List.inj_on_of_nodup_map hnd hp2 hmem
      simpa using hpn
    rwa [hpe] at hq
  · intro hq
    exact List.mem_map_of_mem Prod.fst (List.mem_filter.mpr ⟨hmem, hq⟩)

theorem update_absent (now : Nat) (name : String) (reg : Registry)
    (habs : alookup name reg = none) :
    update_module_load_time now name reg = reg := by
  induction reg with
  | nil => rfl
  | cons p rest ih =>
    obtain ⟨k, v⟩ := p
    rw [update_cons]
    have hk : k ≠ name := by
      intro he
      simp [alookup, he] at habs
    rw [if_neg hk]
    have hrest : alookup name rest = none := by
      simpa [alookup, hk] using habs
    rw [ih hrest]

/-- C4: for a tracked unit whose handle is live and whose source file
exists (and whose scan returns normally), `get_stale_modules` reports it
iff the file's mtime is strictly greater than the recorded load time; an
mtime exactly equal to the load time is never reported. -/
theorem C4_stale_iff_strict_mtime (sysm : SysModules) (fs : FileSystem)
    (reg : Registry) (res : List String) (n : String) (i : LoadedModuleInfo)
    (m : PyModule) (f : String) (mt : Nat)
    (hok : get_stale_modules sysm fs reg = Except.ok res)
    (hnd : (reg.map Prod.fst).Nodup)
    (hmem : (n, i) ∈ reg)
    (hm : alookup n sysm = some m)
    (hf : m.file = some f) (hfe : f.isEmpty = false)
    (hmt : alookup f fs = some mt) :
    (n ∈ res ↔ i.load_time < mt) ∧ (mt = i.load_time → n ∉ res) := by
  have hscans := scans_of_get_stale_ok sysm fs reg res hok
  have hchar := get_stale_eq_of_scans sysm fs reg hscans
  rw [hok] at hchar
  injection hchar with hres
  constructor
  · rw [hres, mem_filter_map_fst _ reg hnd n i hmem]
    simp [nameStale, hm, hf, hfe, hmt]
  · intro heq hin
    rw [hres, mem_filter_map_fst _ reg hnd n i hmem] at hin
    simp [nameStale, hm, hf, hfe, hmt, heq] at hin

/-- Witness for C4 at a concrete world where the mtime equals the load
time: the module is not reported stale. -/
theorem C4_witness :
    (("m" ∈ ([] : List String)) ↔ (5 : Nat) < 5)
    ∧ ((5 : Nat) = 5 → "m" ∉ ([] : List String)) :=
  C4_stale_iff_strict_mtime [("m", ⟨some "/f"⟩)] [("/f", 5)]
    [("m", ⟨"m", "/f", 5⟩)] [] "m" ⟨"m", "/f", 5⟩ ⟨some "/f"⟩ "/f" 5
    rfl (by simp) (by simp) rfl rfl rfl rfl

/-- C5: tracking the same identity a second time is a no-op on the
registry: exactly one entry exists, carrying the first call's path and
load time, and the second call neither replaces nor refreshes it. -/
theorem C5_track_idempotent (t1 t2 : Nat) (spec spec2 : ModuleSpec)
    (reg : Registry)
    (habs : alookup spec.name reg = none)
    (horig : truthyStr spec.origin = true)
    (hname : spec2.name = spec.name) :
    track_module t2 spec2 (track_module t1 spec reg).1 =
      ((track_module t1 spec reg).1, none)
    ∧ alookup spec.name (track_module t1 spec reg).1 =
        some ⟨spec.name, spec.origin.getD "", t1⟩
    ∧ ((track_module t1 spec reg).1.filter
        (fun p => p.1 = spec.name)).length = 1 := by
  have h1 : (track_module t1 spec reg).1 =
      reg ++ [(spec.name, ⟨spec.name, spec.origin.getD "", t1⟩)] := by
    simp [track_module, habs, horig]
  have hl : alookup spec.name (track_module t1 spec reg).1 =
      some ⟨spec.name, spec.origin.getD "", t1⟩ := by
    rw [h1]; exact alookup_append_right _ _ _ habs
  refine ⟨?_, hl, ?_⟩
  · generalize hr : (track_module t1 spec reg).1 = r1 at hl ⊢
    simp [track_module, hname, hl]
  · rw [h1, List.filter_append]
    have hz : reg.filter (fun p => p.1 = spec.name) = [] := by
      rw [List.filter_eq_nil_iff]
      intro p hp
      have hne := (alookup_eq_none _ _).mp habs p hp
      simp [hne]
    simp [hz]

/-- Witness for C5 at a concrete double tracking of the name `m`. -/
theorem C5_witness :
    track_module 2 ⟨"m", some "/g"⟩ (track_module 1 ⟨"m", some "/f"⟩ []).1 =
      ((track_module 1 ⟨"m", some "/f"⟩ []).1, none)
    ∧ alookup "m" (track_module 1 ⟨"m", some "/f"⟩ []).1 =
        some ⟨"m", "/f", 1⟩
    ∧ (((track_module 1 ⟨"m", some "/f"⟩ []).1).filter
        (fun p => p.1 = "m")).length = 1 :=
  C5_track_idempotent 1 2 ⟨"m", some "/f"⟩ ⟨"m", some "/g"⟩ [] rfl rfl rfl

/-- C6: with a live handle, `reload_module` re-executes the module and then
refreshes a tracked identity's registry timestamp to the reload time; with
no live handle it is a complete no-op. -/
theorem C6_reload_module_behavior (reloadOk : String → Bool) (now : Nat)
    (name : String) (sysm : SysModules) (reg : Registry) :
    ((alookup name sysm).isSome = true → reloadOk name = true →
      reload_module reloadOk now name sysm reg =
        ⟨true, update_module_load_time now name reg, none⟩
      ∧ ∀ i, alookup name reg = some i →
          alookup name (reload_module reloadOk now name sysm reg).reg =
            some ⟨i.module_name, i.path, now⟩)
    ∧ (alookup name sysm = none →
        reload_module reloadOk now name sysm reg = ⟨false, reg, none⟩) := by
  constructor
  · intro hs hok
    have he : reload_module reloadOk now name sysm reg =
        ⟨true, update_module_load_time now name reg, none⟩ := by
      simp [reload_module, hs, hok]
    refine ⟨he, fun i hi => ?_⟩
    rw [he]
    show alookup name (update_module_load_time now name reg) =
      some ⟨i.module_name, i.path, now⟩
    rw [alookup_update_self, hi]
    rfl
  · intro hn
    simp [reload_module, hn]

/-- Witness for C6: the live branch at a concrete world, with the tracked
entry's timestamp refreshed to the reload time. -/
theorem C6_witness :
    reload_module (fun _ => true) 9 "m" [("m", ⟨some "/f"⟩)]
        [("m", ⟨"m", "/f", 5⟩)] =
      ⟨true, update_module_load_time 9 "m" [("m", ⟨"m", "/f", 5⟩)], none⟩
    ∧ alookup "m" (reload_module (fun _ => true) 9 "m" [("m", ⟨some "/f"⟩)]
        [("m", ⟨"m", "/f", 5⟩)]).reg = some ⟨"m", "/f", 9⟩ := by
  have h := (C6_reload_module_behavior (fun _ => true) 9 "m"
    [("m", ⟨some "/f"⟩)] [("m", ⟨"m", "/f", 5⟩)]).1 rfl rfl
  exact ⟨h.1, h.2 ⟨"m", "/f", 5⟩ rfl⟩

/-- C10: `reload_module` never creates a registry entry: for an identity
absent from `loaded_modules` the registry is left exactly unchanged, even
when the name is live in `sys.modules` and the module is re-executed. -/
theorem C10_reload_untracked_frame (reloadOk : String → Bool) (now : Nat)
    (name : String) (sysm : SysModules) (reg : Registry)
    (habs : alookup name reg = none) :
    (reload_module reloadOk now name sysm reg).reg = reg
    ∧ ((alookup name sysm).isSome = true → reloadOk name = true →
        (reload_module reloadOk now name sysm reg).reExecuted = true) := by
  have hupd := update_absent now name reg habs
  constructor
  · by_cases hs : (alookup name sysm).isSome = true
    · by_cases hok : reloadOk name = true
      · simp [reload_module, hs, hok, hupd]
      · simp [reload_module, hs, hok]
    · simp [reload_module, hs]
  · intro hs hok
    simp [reload_module, hs, hok]

/-- Witness for C10: the untracked name `m` is live and re-executed, yet
the registry holding only `x` is unchanged. -/
theorem C10_witness :
    (reload_module (fun _ => true) 9 "m" [("m", ⟨some "/f"⟩)]
        [("x", ⟨"x", "/x", 1⟩)]).reg = [("x", ⟨"x", "/x", 1⟩)]
    ∧ (reload_module (fun _ => true) 9 "m" [("m", ⟨some "/f"⟩)]
        [("x", ⟨"x", "/x", 1⟩)]).reExecuted = true := by
  have h := C10_reload_untracked_frame (fun _ => true) 9 "m"
    [("m", ⟨some "/f"⟩)] [("x", ⟨"x", "/x", 1⟩)] rfl
  exact ⟨h.1, h.2 rfl rfl⟩

/-- C7: a module reported stale whose reload succeeds at a time `t` no
earlier than its file's last write (and whose file is untouched afterwards)
is absent from the next staleness scan. -/
theorem C7_reload_clears_staleness (reloadOk : String → Bool) (t : Nat)
    (sysm : SysModules) (fs : FileSystem) (reg : Registry)
    (res : List String) (x : String) (i : LoadedModuleInfo) (m : PyModule)
    (f : String) (mt : Nat)
    (hok : get_stale_modules sysm fs reg = Except.ok res)
    (hnd : (reg.map Prod.fst).Nodup)
    (_hx : x ∈ res)
    (hokx : reloadOk x = true)
    (hmem : (x, i) ∈ reg)
    (hm : alookup x sysm = some m)
    (hf : m.file = some f)
    (hmt : alookup f fs = some mt)
    (ht : mt ≤ t) :
    ∃ res2,
      get_stale_modules sysm fs (reload_module reloadOk t x sysm reg).reg =
        Except.ok res2 ∧ x ∉ res2 := by
  have hreg2 : (reload_module reloadOk t x sysm reg).reg =
      update_module_load_time t x reg := by
    simp [reload_module, hm, hokx]
  have hscans := scans_of_get_stale_ok sysm fs reg res hok
  have hscans2 : ∀ p ∈ update_module_load_time t x reg,
      nameScans sysm fs p.1 = true := by
    intro p hp
    have hp1 : p.1 ∈ (update_module_load_time t x reg).map Prod.fst :=
      List.mem_map_of_mem Prod.fst hp
    rw [update_keys] at hp1
    rcases List.mem_map.mp hp1 with ⟨q, hq, hq1⟩
    rw [← hq1]
    exact hscans q hq
  have hchar := get_stale_eq_of_scans sysm fs _ hscans2
  rw [hreg2]
  refine ⟨_, hchar, ?_⟩
  have hnd2 : ((update_module_load_time t x reg).map Prod.fst).Nodup := by
    rw [update_keys]; exact hnd
  have hmem2 : (x, (⟨i.module_name, i.path, t⟩ : LoadedModuleInfo)) ∈
      update_module_load_time t x reg := by
    have hmm := List.mem_map_of_mem
      (fun p : String × LoadedModuleInfo =>
        if p.1 = x then
          (p.1, (⟨p.2.module_name, p.2.path, t⟩ : LoadedModuleInfo))
        else p) hmem
    simpa [update_module_load_time] using hmm
  rw [mem_filter_map_fst _ _ hnd2 x _ hmem2]
  by_cases hfe : f.isEmpty
  · simp [nameStale, hm, hf, hfe]
  · simp [nameStale, hm, hf, hfe, hmt]
    omega

/-- Witness for C7: `m` is stale (mtime 9 against load time 5), reloads at
time 9, and is no longer reported afterwards. -/
theorem C7_witness :
    ∃ res2,
      get_stale_modules [("m", ⟨some "/f"⟩)] [("/f", 9)]
          (reload_module (fun _ => true) 9 "m" [("m", ⟨some "/f"⟩)]
            [("m", ⟨"m", "/f", 5⟩)]).reg = Except.ok res2
      ∧ "m" ∉ res2 :=
  C7_reload_clears_staleness (fun _ => true) 9 [("m", ⟨some "/f"⟩)]
    [("/f", 9)] [("m", ⟨"m", "/f", 5⟩)] ["m"] "m" ⟨"m", "/f", 5⟩
    ⟨some "/f"⟩ "/f" 9 rfl (by simp) (by simp) rfl (by simp) rfl rfl rfl
    (by omega)

/-- C1 counterexample: the resolution chain succeeds with a spec whose
origin is absent and whose name is untracked; `find_spec` raises
`AssertionError` (so the resolution is aborted, no result is returned)
instead of returning the spec unchanged as the claim states. -/
theorem C1_counterexample :
    find_spec 0 [some (fun _ => some ⟨"m", none⟩)] "m" [] =
      (Except.error PyError.assertionError, [])
    ∧ (find_spec 0 [some (fun _ => some ⟨"m", none⟩)] "m" []).1 ≠
        Except.ok (some ⟨"m", none⟩) := by
  refine ⟨rfl, ?_⟩
  intro h
  rw [show (find_spec 0 [some (fun _ => some ⟨"m", none⟩)] "m" []).1 =
      Except.error PyError.assertionError from rfl] at h
  exact Except.noConfusion h

/-- C1 amended: when the first successful resolver returns a spec with a
falsy origin, the registry gains no entry either way; if the identity is
already tracked, `find_spec` returns the spec unchanged without raising,
but if it is untracked, the `assert spec.origin` in `track_module` raises
`AssertionError`, aborting the resolution. -/
theorem C1_no_origin_tracking (now : Nat) (front rest : List Finder)
    (g : String → Option ModuleSpec) (fullname : String) (reg : Registry)
    (spec : ModuleSpec)
    (hfront : ∀ f ∈ front, ∀ g0 : String → Option ModuleSpec,
      f = some g0 → g0 fullname = none)
    (hg : g fullname = some spec)
    (horig : truthyStr spec.origin = false) :
    find_spec now (front ++ some g :: rest) fullname reg =
      ((if (alookup spec.name reg).isSome = true then Except.ok (some spec)
        else Except.error PyError.assertionError), reg) := by
  induction front with
  | nil =>
    by_cases hs : (alookup spec.name reg).isSome = true
    · simp [find_spec, hg, track_module, hs]
    · simp [find_spec, hg, track_module, hs, horig]
  | cons f fr ih =>
    have hf := hfront f (List.mem_cons_self _ _)
    have hfr : ∀ f2 ∈ fr, ∀ g0 : String → Option ModuleSpec,
        f2 = some g0 → g0 fullname = none :=
      fun f2 h2 => hfront f2 (List.mem_cons_of_mem _ h2)
    cases f with
    | none => simpa [find_spec] using ih hfr
    | some g0 =>
      have hg0 : g0 fullname = none := hf g0 rfl
      simpa [find_spec, hg0] using ih hfr

/-- Witness for C1 amended: with the identity already tracked, the spec
without origin is returned unchanged and the registry is untouched. -/
theorem C1_witness :
    find_spec 4 [none, some (fun _ => some ⟨"m", none⟩)] "m"
        [("m", ⟨"m", "/f", 1⟩)] =
      ((if (alookup "m" [("m", (⟨"m", "/f", 1⟩ : LoadedModuleInfo))]).isSome = true
        then Except.ok (some ⟨"m", none⟩)
        else Except.error PyError.assertionError),
        [("m", ⟨"m", "/f", 1⟩)]) :=
  C1_no_origin_tracking 4 [none] [] (fun _ => some ⟨"m", none⟩) "m"
    [("m", ⟨"m", "/f", 1⟩)] ⟨"m", none⟩
    (by intro f hf g0 he; simp at hf; rw [hf] at he; exact Option.noConfusion he)
    rfl rfl

/-- C2 counterexample: a tracked module whose name has vanished from
`sys.modules` makes `get_stale_modules` raise `KeyError` instead of
skipping the entry silently. -/
theorem C2_counterexample :
    get_stale_modules [] [("/f", 9)] [("m", ⟨"m", "/f", 5⟩)] =
      Except.error (PyError.keyError "m") := rfl

/-- C2 amended: an entry whose module `__file__` is falsy is skipped
silently, but an entry whose name is absent from `sys.modules`, or whose
file is truthy yet missing from disk, makes `get_stale_modules` raise,
aborting the whole scan rather than skipping the entry. -/
theorem C2_scan_errors (sysm : SysModules) (fs : FileSystem)
    (reg : Registry) :
    (∀ n i, (n, i) ∈ reg → alookup n sysm = none →
      ∃ e, get_stale_modules sysm fs reg = Except.error e)
    ∧ (∀ n i m f, (n, i) ∈ reg → alookup n sysm = some m →
        m.file = some f → f.isEmpty = false → alookup f fs = none →
        ∃ e, get_stale_modules sysm fs reg = Except.error e)
    ∧ (∀ res n i m, get_stale_modules sysm fs reg = Except.ok res →
        (reg.map Prod.fst).Nodup → (n, i) ∈ reg → alookup n sysm = some m →
        truthyStr m.file = false → n ∉ res) := by
  refine ⟨?_, ?_, ?_⟩
  · intro n i hmem hm
    cases hgs : get_stale_modules sysm fs reg with
    | error e => exact ⟨e, rfl⟩
    | ok res =>
      have hsc := scans_of_get_stale_ok sysm fs reg res hgs (n, i) hmem
      simp [nameScans, hm] at hsc
  · intro n i m f hmem hm hf hfe hmt
    cases hgs : get_stale_modules sysm fs reg with
    | error e => exact ⟨e, rfl⟩
    | ok res =>
      have hsc := scans_of_get_stale_ok sysm fs reg res hgs (n, i) hmem
      simp [nameScans, hm, hf, hfe, hmt] at hsc
  · intro res n i m hok hnd hmem hm hfal
    have hscans := scans_of_get_stale_ok sysm fs reg res hok
    have hchar := get_stale_eq_of_scans sysm fs reg hscans
    rw [hok] at hchar
    injection hchar with hres
    rw [hres, mem_filter_map_fst _ reg hnd n i hmem]
    cases hfm : m.file with
    | none => simp [nameStale, hm, hfm]
    | some f =>
      have hfe : f.isEmpty = true := by
        simpa [truthyStr, hfm] using hfal
      simp [nameStale, hm, hfm, hfe]

/-- Witness for C2 amended: the missing-handle case raises at a concrete
world. -/
theorem C2_witness :
    ∃ e, get_stale_modules [] [("/f", 9)] [("m", ⟨"m", "/f", 5⟩)] =
      Except.error e :=
  (C2_scan_errors [] [("/f", 9)] [("m", ⟨"m", "/f", 5⟩)]).1 "m"
    ⟨"m", "/f", 5⟩ (by simp) rfl

theorem run_reloads_cons (reloadOk : String → Bool) (nowAt : String → Nat)
    (sysm : SysModules) (n : String) (rest : List String) (reg : Registry) :
    run_reloads reloadOk nowAt sysm (n :: rest) reg =
      match reload_module reloadOk (nowAt n) n sysm reg with
      | ⟨_, reg1, none⟩ => run_reloads reloadOk nowAt sysm rest reg1
      | ⟨_, reg1, some e⟩ => (reg1, some e) := rfl

/-- Running the reload loop over a stale list whose first failing name is
`a` (every earlier name either lacks a live handle or reloads fine) stops
at `a`: the names before `a` are processed, `a`'s error escapes, and the
names after `a` are never reloaded. -/
theorem run_reloads_front_fail (reloadOk : String → Bool)
    (nowAt : String → Nat) (sysm : SysModules) (a : String)
    (hfail : reloadOk a = false) (ha : (alookup a sysm).isSome = true) :
    ∀ (front post : List String) (reg : Registry),
      (∀ x ∈ front, (alookup x sysm).isSome = true → reloadOk x = true) →
      run_reloads reloadOk nowAt sysm (front ++ a :: post) reg =
        (front.foldl
          (fun r x => (reload_module reloadOk (nowAt x) x sysm r).reg) reg,
          some (PyError.reloadError a)) := by
  intro front
  induction front with
  | nil =>
    intro post reg _
    simp [run_reloads_cons, reload_module, ha, hfail]
  | cons x fr ih =>
    intro post reg hfr
    have hx := hfr x (List.mem_cons_self _ _)
    have hfr2 : ∀ y ∈ fr, (alookup y sysm).isSome = true → reloadOk y = true :=
      fun y hy => hfr y (List.mem_cons_of_mem _ hy)
    rw [List.cons_append, run_reloads_cons, List.foldl_cons]
    by_cases hxs : (alookup x sysm).isSome = true
    · have hokx := hx hxs
      have hrm : reload_module reloadOk (nowAt x) x sysm reg =
          ⟨true, update_module_load_time (nowAt x) x reg, none⟩ := by
        simp [reload_module, hxs, hokx]
      rw [hrm]
      exact ih post (update_module_load_time (nowAt x) x reg) hfr2
    · have hrm : reload_module reloadOk (nowAt x) x sysm reg =
          ⟨false, reg, none⟩ := by
        simp [reload_module, hxs]
      rw [hrm]
      exact ih post reg hfr2

/-- Reloading a list of names not containing `a` never touches `a`'s
registry entry. -/
theorem foldl_reload_preserves (reloadOk : String → Bool)
    (nowAt : String → Nat) (sysm : SysModules) (a : String) :
    ∀ (front : List String) (reg : Registry), a ∉ front →
      alookup a (front.foldl
        (fun r x => (reload_module reloadOk (nowAt x) x sysm r).reg) reg) =
        alookup a reg := by
  intro front
  induction front with
  | nil => intro reg _; rfl
  | cons x fr ih =>
    intro reg hna
    have hax : a ≠ x := fun he => hna (he ▸ List.mem_cons_self _ _)
    have hnafr : a ∉ fr := fun hf => hna (List.mem_cons_of_mem _ hf)
    rw [List.foldl_cons, ih _ hnafr]
    by_cases hxs : (alookup x sysm).isSome = true
    · by_cases hok : reloadOk x = true
      · simp [reload_module, hxs, hok, alookup_update_ne _ _ _ _ hax]
      · simp [reload_module, hxs, hok]
    · simp [reload_module, hxs]

/-- C3 counterexample: `A` and `B` are both stale (load time 10, mtimes
20), `A`'s re-execution raises and precedes `B`; `reload_stale_modules`
leaves the registry exactly as it was — `B` is neither reloaded nor
refreshed, contrary to the claim. -/
theorem C3_counterexample :
    reload_stale_modules (fun n => n != "A") (fun _ => 100)
        [("A", ⟨some "/a"⟩), ("B", ⟨some "/b"⟩)] [("/a", 20), ("/b", 20)]
        [("A", ⟨"A", "/a", 10⟩), ("B", ⟨"B", "/b", 10⟩)] =
      ([("A", ⟨"A", "/a", 10⟩), ("B", ⟨"B", "/b", 10⟩)],
        some (PyError.reloadError "A")) := rfl

/-- C3 amended: `reload_stale_modules` propagates the first reload failure
and aborts the batch: stale units before the failing unit `A` are reloaded
and refreshed, `A`'s timestamp is not refreshed (so `A` stays stale), and
stale units after `A` — such as `B` in the counterexample — are not
reloaded at all. -/
theorem C3_first_failure_aborts (reloadOk : String → Bool)
    (nowAt : String → Nat) (sysm : SysModules) (fs : FileSystem)
    (reg : Registry) (front post : List String) (a : String)
    (hstale : get_stale_modules sysm fs reg = Except.ok (front ++ a :: post))
    (hfront : ∀ x ∈ front, (alookup x sysm).isSome = true → reloadOk x = true)
    (ha : (alookup a sysm).isSome = true) (hfail : reloadOk a = false) :
    reload_stale_modules reloadOk nowAt sysm fs reg =
      (front.foldl
        (fun r x => (reload_module reloadOk (nowAt x) x sysm r).reg) reg,
        some (PyError.reloadError a))
    ∧ (a ∉ front →
        alookup a (reload_stale_modules reloadOk nowAt sysm fs reg).1 =
          alookup a reg) := by
  have hrun := run_reloads_front_fail reloadOk nowAt sysm a hfail ha
    front post reg hfront
  have hmain : reload_stale_modules reloadOk nowAt sysm fs reg =
      (front.foldl
        (fun r x => (reload_module reloadOk (nowAt x) x sysm r).reg) reg,
        some (PyError.reloadError a)) := by
    unfold reload_stale_modules
    rw [hstale]
    exact hrun
  refine ⟨hmain, fun hna => ?_⟩
  rw [hmain]
  exact foldl_reload_preserves reloadOk nowAt sysm a front reg hna

/-- Witness for C3 amended at the counterexample world: the failure is
reported and `A`'s entry is untouched. -/
theorem C3_witness :
    reload_stale_modules (fun n => n != "A") (fun _ => 100)
        [("A", ⟨some "/a"⟩), ("B", ⟨some "/b"⟩)] [("/a", 20), ("/b", 20)]
        [("A", ⟨"A", "/a", 10⟩), ("B", ⟨"B", "/b", 10⟩)] =
      ([("A", ⟨"A", "/a", 10⟩), ("B", ⟨"B", "/b", 10⟩)],
        some (PyError.reloadError "A"))
    ∧ alookup "A" (reload_stale_modules (fun n => n != "A") (fun _ => 100)
        [("A", ⟨some "/a"⟩), ("B", ⟨some "/b"⟩)] [("/a", 20), ("/b", 20)]
        [("A", ⟨"A", "/a", 10⟩), ("B", ⟨"B", "/b", 10⟩)]).1 =
      some ⟨"A", "/a", 10⟩ := by
  have h := C3_first_failure_aborts (fun n => n != "A") (fun _ => 100)
    [("A", ⟨some "/a"⟩), ("B", ⟨some "/b"⟩)] [("/a", 20), ("/b", 20)]
    [("A", ⟨"A", "/a", 10⟩), ("B", ⟨"B", "/b", 10⟩)] [] ["B"] "A"
    rfl (by intro x hx; cases hx) rfl rfl
  exact ⟨h.1, (h.2 (by intro hx; cases hx)).trans rfl⟩

/-- C8 counterexample: dereferencing the result of `get_loaded_modules`
after a later `track_module` mutation shows the mutated registry — the
returned collection is not a point-in-time copy. -/
theorem C8_counterexample :
    readRef get_loaded_modules
        (Heap.mk (track_module 7 ⟨"m", some "/f"⟩
          (Heap.mk []).loaded_modules).1) ≠
      readRef get_loaded_modules (Heap.mk []) := by
  intro h
  rw [show readRef get_loaded_modules
      (Heap.mk (track_module 7 ⟨"m", some "/f"⟩
        (Heap.mk []).loaded_modules).1) =
      [("m", ⟨"m", "/f", 7⟩)] from rfl] at h
  exact List.noConfusion h

/-- C8 amended: `get_loaded_modules` returns the registry dict itself (a
reference, not a copy), so a mutation performed after the call is visible
through the previously returned collection: once `track_module` inserts an
entry, dereferencing the old result shows it. -/
theorem C8_live_reference (h : Heap) (now : Nat) (spec : ModuleSpec)
    (habs : alookup spec.name (readRef get_loaded_modules h) = none)
    (horig : truthyStr spec.origin = true) :
    alookup spec.name
        (readRef get_loaded_modules
          (Heap.mk (track_module now spec h.loaded_modules).1)) =
      some ⟨spec.name, spec.origin.getD "", now⟩ := by
  have habs2 : alookup spec.name h.loaded_modules = none := habs
  show alookup spec.name (track_module now spec h.loaded_modules).1 = _
  rw [show (track_module now spec h.loaded_modules).1 =
      h.loaded_modules ++
        [(spec.name, ⟨spec.name, spec.origin.getD "", now⟩)] by
    simp [track_module, habs2, horig]]
  exact alookup_append_right _ _ _ habs2

/-- Witness for C8 amended at a concrete heap. -/
theorem C8_witness :
    alookup "m" (readRef get_loaded_modules
      (Heap.mk (track_module 7 ⟨"m", some "/f"⟩
        (Heap.mk []).loaded_modules).1)) = some ⟨"m", "/f", 7⟩ :=
  C8_live_reference ⟨[]⟩ 7 ⟨"m", some "/f"⟩ rfl rfl

/-- C9 counterexample: `track_module` with an empty identity and a truthy
origin creates a registry entry keyed by the empty string — the empty
identity is not rejected. -/
theorem C9_counterexample :
    track_module 3 ⟨"", some "/x"⟩ [] = ([("", ⟨"", "/x", 3⟩)], none) := rfl

/-- C9 amended: the registry does not reject the empty identity: an
untracked empty name with a truthy origin is tracked exactly like any
other identity. -/
theorem C9_empty_identity_tracked (now : Nat) (origin : String)
    (reg : Registry) (habs : alookup "" reg = none)
    (ho : origin.isEmpty = false) :
    track_module now ⟨"", some origin⟩ reg =
      (reg ++ [("", ⟨"", origin, now⟩)], none)
    ∧ alookup "" (track_module now ⟨"", some origin⟩ reg).1 =
        some ⟨"", origin, now⟩ := by
  have ht : truthyStr (some origin) = true := by simp [truthyStr, ho]
  have h1 : track_module now ⟨"", some origin⟩ reg =
      (reg ++ [("", ⟨"", origin, now⟩)], none) := by
    simp [track_module, habs, ht]
  exact ⟨h1, by rw [h1]; exact alookup_append_right _ _ _ habs⟩

/-- Witness for C9 amended on a non-empty registry. -/
theorem C9_witness :
    track_module 3 ⟨"", some "/y"⟩ [("a", ⟨"a", "/a", 1⟩)] =
      ([("a", ⟨"a", "/a", 1⟩), ("", ⟨"", "/y", 3⟩)], none)
    ∧ alookup "" (track_module 3 ⟨"", some "/y"⟩
        [("a", ⟨"a", "/a", 1⟩)]).1 = some ⟨"", "/y", 3⟩ :=
  C9_empty_identity_tracked 3 "/y" [("a", ⟨"a", "/a", 1⟩)] rfl rfl

end ModuleReloader
